import Mathlib

/- Verification development for the TSDB manager
   (pkg/storage/stores/tsdb/manager.go): the table-period partitioner
   (indexBuckets), WAL-driven index building (BuildFromWALs) and startup
   recovery (Start). External collaborators that are not part of the file
   under verification (WAL recovery, the index Builder, the shipper, the
   identifier helpers and the table-range configuration) are modelled from
   the contracts stated in the specification. -/

set_option autoImplicit false

deriving instance DecidableEq for Except

/-- Modelled from the spec: the per-table configuration value returned by
ConfigForTableNumber. It supplies the bucket-key table pre-string
(IndexTables.Prefix in the source). -/
structure PeriodConfig where
  tablePfx : String
deriving DecidableEq, Repr

/-- Modelled from the spec: the table-range configuration contract.
ConfigForTableNumber(n) yields a config or is absent. -/
abbrev TableRanges := Int → Option PeriodConfig

/-- Modelled from the spec: the fixed process-wide table period
(config.ObjectStorageIndexRequiredPeriod), 24 hours in nanoseconds. -/
def ObjectStorageIndexRequiredPeriod : Int := 86400000000000

/-- Table number of a millisecond timestamp exactly as the source computes
it: from.Time().UnixNano() / int64(period). Go division on int64 truncates
toward zero, hence Int.tdiv; model.Time milliseconds convert to UnixNano by
multiplying with 1000000. -/
def tableNumber (ms : Int) : Int :=
  Int.tdiv (ms * 1000000) ObjectStorageIndexRequiredPeriod

/-- The table numbers visited by the indexBuckets loop (manager.go 265):
start..end inclusive, empty when end < start. -/
def codeTables (frm thru : Int) : List Int :=
  (List.range (tableNumber thru - tableNumber frm + 1).toNat).map
    (fun i : Nat => tableNumber frm + (i : Int))

/-- Follows the spec words: the table number as a mathematical floor of
the division, for comparison with the truncating division of the code. -/
def specTableNumber (ms : Int) : Int :=
  Int.fdiv (ms * 1000000) ObjectStorageIndexRequiredPeriod

/-- Follows the spec words: the inclusive floor range of table numbers. -/
def specTables (frm thru : Int) : List Int :=
  (List.range (specTableNumber thru - specTableNumber frm + 1).toNat).map
    (fun i : Nat => specTableNumber frm + (i : Int))

/-- Loop body of indexBuckets (manager.go 265-271) over the list of table
numbers: fails at the first table number with no configuration entry, else
emits one key per table number, each the configured pre-string followed by
the decimal table number, in list order. -/
def indexBucketsGo (tr : TableRanges) : List Int → Except String (List String)
  | [] => Except.ok []
  | cur :: rest =>
    match tr cur with
    | none => Except.error ("could not find config for table number " ++ toString cur)
    | some cfg =>
      match indexBucketsGo tr rest with
      | Except.error e => Except.error e
      | Except.ok res => Except.ok ((cfg.tablePfx ++ toString cur) :: res)

/-- indexBuckets (manager.go 262-273). -/
def indexBuckets (frm thru : Int) (tr : TableRanges) : Except String (List String) :=
  indexBucketsGo tr (codeTables frm thru)

theorem indexBucketsGo_ok (tr : TableRanges) (pf : Int → String) :
    ∀ L : List Int, (∀ n ∈ L, tr n = some ⟨pf n⟩) →
      indexBucketsGo tr L = Except.ok (L.map (fun n => pf n ++ toString n)) := by
  intro L
  induction L with
  | nil => intro _; rfl
  | cons cur rest ih =>
    intro h
    have hcur := h cur (List.mem_cons_self _ _)
    have hrest := ih (fun n hn => h n (List.mem_cons_of_mem _ hn))
    simp [indexBucketsGo, hcur, hrest]

theorem indexBucketsGo_error (tr : TableRanges) (n : Int) :
    ∀ L : List Int, List.Pairwise (· < ·) L → n ∈ L → tr n = none →
      (∀ m ∈ L, m < n → (tr m).isSome = true) →
      indexBucketsGo tr L
        = Except.error ("could not find config for table number " ++ toString n) := by
  intro L
  induction L with
  | nil => intro _ hn; exact absurd hn (List.not_mem_nil n)
  | cons cur rest ih =>
    intro hpw hn hnone hmin
    rcases List.mem_cons.mp hn with rfl | hn'
    · simp [indexBucketsGo, hnone]
    · have hcurlt : cur < n := (List.pairwise_cons.mp hpw).1 n hn'
      have hcur : (tr cur).isSome = true :=
        hmin cur (List.mem_cons_self _ _) hcurlt
      obtain ⟨cfg, hcfg⟩ := Option.isSome_iff_exists.mp hcur
      have hrest := ih (List.pairwise_cons.mp hpw).2 hn' hnone
        (fun m hm hlt => hmin m (List.mem_cons_of_mem _ hm) hlt)
      simp [indexBucketsGo, hcfg, hrest]

theorem codeTables_pairwise (frm thru : Int) :
    List.Pairwise (· < ·) (codeTables frm thru) := by
  unfold codeTables
  exact List.Pairwise.map (fun i : Nat => tableNumber frm + (i : Int))
    (fun a b hab =>
      show tableNumber frm + (a : Int) < tableNumber frm + (b : Int) by omega)
    (List.pairwise_lt_range _)

theorem tableNumber_eq_spec (ms : Int) (h : 0 ≤ ms) :
    tableNumber ms = specTableNumber ms := by
  unfold tableNumber specTableNumber
  rw [Int.fdiv_eq_tdiv (mul_nonneg h (by norm_num))
    (by norm_num [ObjectStorageIndexRequiredPeriod])]

theorem codeTables_eq_spec (frm thru : Int) (h0 : 0 ≤ frm) (h1 : 0 ≤ thru) :
    codeTables frm thru = specTables frm thru := by
  unfold codeTables specTables
  rw [tableNumber_eq_spec frm h0, tableNumber_eq_spec thru h1]

/-- Configuration used by the counterexample to claim C1: every table in
the floor range of the interval is configured with the same pre-string. -/
def c1CfgNeg : TableRanges := fun n => if n = -1 ∨ n = 0 then some ⟨"index_"⟩ else none

/-- Configuration used by the duplicate-key part of the counterexample to
claim C1: table 1 carries pre-string x1, tables 2..11 carry x, so table 1
and table 11 both produce the key x11. -/
def c1CfgDup : TableRanges :=
  fun n => if n = 1 then some ⟨"x1"⟩ else if 1 ≤ n ∧ n ≤ 11 then some ⟨"x"⟩ else none

/-- Claim C1 as stated fails twice. First, at from = -1ms, through = 0:
the floor range of table numbers is [-1, 0] and fully configured, but
indexBuckets divides with truncation toward zero, visits only table 0 and
returns a single key, not one key per table number of the floor range.
Second, at from = 1 day, through = 11 days with configuration c1CfgDup:
both times are nonnegative and every table number of the (floor) range
1..11 is configured, yet the returned key list contains x11 twice, for
table 1 (pre-string x1) and for table 11 (pre-string x), refuting the
no-duplicate-keys guarantee. -/
theorem C1_counterexample :
    (((-1 : Int) ≤ 0)
      ∧ (∀ n ∈ specTables (-1) 0, (c1CfgNeg n).isSome = true)
      ∧ specTables (-1) 0 = [-1, 0]
      ∧ indexBuckets (-1) 0 c1CfgNeg = Except.ok ["index_0"]
      ∧ indexBuckets (-1) 0 c1CfgNeg
          ≠ Except.ok ((specTables (-1) 0).map (fun n => "index_" ++ toString n)))
    ∧ ((0 : Int) ≤ 86400000
      ∧ (86400000 : Int) ≤ 950400000
      ∧ (∀ n ∈ specTables 86400000 950400000, (c1CfgDup n).isSome = true)
      ∧ specTables 86400000 950400000 = codeTables 86400000 950400000
      ∧ indexBuckets 86400000 950400000 c1CfgDup
          = Except.ok ["x11", "x2", "x3", "x4", "x5", "x6", "x7", "x8", "x9", "x10", "x11"]
      ∧ ¬ List.Nodup ["x11", "x2", "x3", "x4", "x5", "x6", "x7", "x8", "x9", "x10", "x11"]) := by
  decide

/-- Claim C1 (amended): for 0 ≤ from ≤ through and a configuration with an
entry for every table number the loop visits, indexBuckets returns exactly
one key per table number of the range, each the configured pre-string
followed by the decimal table number, the table numbers strictly
increasing; for these nonnegative times the visited range coincides with
the floor range of the spec. Distinct keys are not guaranteed in general:
two distinct table numbers with colliding pre-strings can yield the same
key string. -/
theorem C1_amended_thm (frm thru : Int) (tr : TableRanges) (pf : Int → String)
    (h0 : 0 ≤ frm) (hle : frm ≤ thru)
    (hcov : ∀ n ∈ codeTables frm thru, tr n = some ⟨pf n⟩) :
    indexBuckets frm thru tr
        = Except.ok ((codeTables frm thru).map (fun n => pf n ++ toString n))
      ∧ List.Pairwise (· < ·) (codeTables frm thru)
      ∧ codeTables frm thru = specTables frm thru :=
  ⟨indexBucketsGo_ok tr pf _ hcov, codeTables_pairwise frm thru,
    codeTables_eq_spec frm thru h0 (le_trans h0 hle)⟩

/-- A configuration covering tables 0..2 with one pre-string. -/
def c1Tr : TableRanges := fun n => if 0 ≤ n ∧ n ≤ 2 then some ⟨"index_"⟩ else none

/-- Witness for the amended claim C1 at from = 0, through = 2 days. -/
theorem C1_amended_witness :
    indexBuckets 0 172800000 c1Tr
        = Except.ok ((codeTables 0 172800000).map (fun n => "index_" ++ toString n))
      ∧ List.Pairwise (· < ·) (codeTables 0 172800000)
      ∧ codeTables 0 172800000 = specTables 0 172800000 :=
  C1_amended_thm 0 172800000 c1Tr (fun _ => "index_") (by decide) (by decide) (by decide)

/-- Configuration used for claim C6: only table 0 is configured. -/
def c6Cfg : TableRanges := fun n => if n = 0 then some ⟨"index_"⟩ else none

/-- Claim C6 as stated is false at from = -1ms, through = 0: table -1 lies
in the floor range and has no configuration entry, yet indexBuckets
truncates toward zero, never visits table -1 and succeeds. -/
theorem C6_counterexample :
    ((-1 : Int) ∈ specTables (-1) 0)
      ∧ c6Cfg (-1) = none
      ∧ indexBuckets (-1) 0 c6Cfg = Except.ok ["index_0"] := by
  decide

/-- Claim C6 (amended): for 0 ≤ from ≤ through, if some table number of
the visited range has no configuration entry then indexBuckets fails with
an error naming the least such table number, and the error value carries
no keys at all; the visited range coincides with the floor range of the
spec for these nonnegative times. -/
theorem C6_amended_thm (frm thru : Int) (tr : TableRanges) (n : Int)
    (h0 : 0 ≤ frm) (hle : frm ≤ thru)
    (hn : n ∈ codeTables frm thru) (hmiss : tr n = none)
    (hleast : ∀ m ∈ codeTables frm thru, m < n → (tr m).isSome = true) :
    indexBuckets frm thru tr
        = Except.error ("could not find config for table number " ++ toString n)
      ∧ codeTables frm thru = specTables frm thru :=
  ⟨indexBucketsGo_error tr n _ (codeTables_pairwise frm thru) hn hmiss hleast,
    codeTables_eq_spec frm thru h0 (le_trans h0 hle)⟩

/-- Witness for the amended claim C6 at from = 0, through = 2 days with
only table 0 configured: the call fails naming table 1. -/
theorem C6_amended_witness :
    indexBuckets 0 172800000 c6Cfg
        = Except.error ("could not find config for table number " ++ toString (1 : Int))
      ∧ codeTables 0 172800000 = specTables 0 172800000 :=
  C6_amended_thm 0 172800000 c6Cfg 1 (by decide) (by decide) (by decide) (by decide)
    (by decide)

/-- Modelled from the spec: a label set, a list of (name, value) pairs. -/
abbrev Labels := List (String × String)

/-- Modelled from the spec: the synthetic tenant label name injected into
stored series. No claim depends on the concrete value. -/
def TenantLabel : String := "__loki_tenant__"

/-- Lexicographic label-name order on the character data. -/
def labelLt (a b : String) : Bool := decide (a.data < b.data)

/-- Insertion into a name-sorted label list. -/
def insertSorted (p : String × String) : Labels → Labels
  | [] => [p]
  | q :: rest => if labelLt q.1 p.1 then q :: insertSorted p rest else p :: q :: rest

/-- Modelled from the spec: labels.NewBuilder(ls) followed by
Set(TenantLabel, user) and Labels() replaces any binding of the name and
keeps the label list name-sorted (manager.go 193-196). -/
def labelsSet (ls : Labels) (n v : String) : Labels :=
  insertSorted (n, v) (ls.filter (fun p => p.1 != n))

/-- Modelled from the spec: chunk metadata, a half-open interval in
milliseconds plus an opaque payload handle. -/
structure ChunkMeta where
  cfrom : Int
  cthrough : Int
  ref : Nat
deriving DecidableEq, Repr

/-- The per-series bucket map pds of the visit closure, in insertion
order of the bucket keys. -/
abbrev PdsMap := List (String × List ChunkMeta)

/-- pds[bucket] = append(pds[bucket], chk) (manager.go 188-190). -/
def pdsAdd (m : PdsMap) (k : String) (c : ChunkMeta) : PdsMap :=
  match m with
  | [] => [(k, [c])]
  | (k', cs) :: rest =>
    if k' = k then (k', cs ++ [c]) :: rest else (k', cs) :: pdsAdd rest k c

/-- The chunk loop of the visit closure (manager.go 182-191): each chunk
is appended to the bucket list of every key the partitioner returns for
its interval; a partitioner error aborts the visit. -/
def chunkPdsGo (tr : TableRanges) (m : PdsMap) :
    List ChunkMeta → Except String PdsMap
  | [] => Except.ok m
  | c :: rest =>
    match indexBuckets c.cfrom c.cthrough tr with
    | Except.error e => Except.error e
    | Except.ok bks =>
      chunkPdsGo tr (bks.foldl (fun acc b => pdsAdd acc b c) m) rest

def chunkPds (tr : TableRanges) (chks : List ChunkMeta) : Except String PdsMap :=
  chunkPdsGo tr [] chks

/-- Modelled from the spec: one AddSeries call recorded by a Builder. -/
structure BuilderEntry where
  ls : Labels
  fp : Nat
  chks : List ChunkMeta
deriving DecidableEq, Repr

/-- Modelled from the spec: a Builder accumulates the series added to it
during one build pass, in call order. -/
abbrev Builder := List BuilderEntry

/-- The lazily filled bucket-key to Builder map of one build pass, in
insertion order of the keys. -/
abbrev PeriodMap := List (String × Builder)

/-- Lazily create the Builder of a bucket key and record one AddSeries
call on it (manager.go 199-213). -/
def periodsAdd (m : PeriodMap) (k : String) (e : BuilderEntry) : PeriodMap :=
  match m with
  | [] => [(k, [e])]
  | (k', b) :: rest =>
    if k' = k then (k', b ++ [e]) :: rest else (k', b) :: periodsAdd rest k e

/-- Modelled from the spec: one (tenant, labels, chunks) triple yielded
by the single-pass WAL-recovery iteration. -/
structure HeadSeries where
  user : String
  ls : Labels
  chks : List ChunkMeta
deriving DecidableEq, Repr

/-- The visit closure of BuildFromWALs (manager.go 178-215) applied to
the builder map accumulated so far: partition the chunks of the series by
bucket key, inject the tenant label into a copy of the labels, and per
touched bucket add one series entry holding the tenant-tagged labels, the
hash of the original label set, and the chunks of that bucket. The hash
function of the external label type is a parameter. -/
def visitSeries (hsh : Labels → Nat) (tr : TableRanges) (m : PeriodMap)
    (s : HeadSeries) : Except String PeriodMap :=
  match chunkPds tr s.chks with
  | Except.error e => Except.error e
  | Except.ok pds =>
    Except.ok (pds.foldl
      (fun acc pc => periodsAdd acc pc.1
        ⟨labelsSet s.ls TenantLabel s.user, hsh s.ls, pc.2⟩) m)

/-- Modelled from the spec: tenantHeads.forAll visits every triple in
order and aborts on the first visit error; the result is the builder map
accumulated by the successful visits plus the first error if any. -/
def forAllSeries (hsh : Labels → Nat) (tr : TableRanges) :
    PeriodMap → List HeadSeries → PeriodMap × Option String
  | m, [] => (m, none)
  | m, s :: rest =>
    match visitSeries hsh tr m s with
    | Except.error e => (m, some e)
    | Except.ok m2 => forAllSeries hsh tr m2 rest

/-- Modelled from the spec: the destination identifier; the struct
literal at manager.go 225-228 sets exactly a node name and a build
timestamp. -/
structure MultitenantTSDBIdentifier where
  nodeName : String
  ts : Int
deriving DecidableEq, Repr

/-- Modelled from the spec: newPrefixedIdentifier wraps an identifier
with a parent directory and an extra leading path piece. -/
structure PrefixedIdentifier where
  base : MultitenantTSDBIdentifier
  parentDir : String
  pathPre : String
deriving DecidableEq, Repr

/-- Modelled from the spec: the multitenant root under the manager dir. -/
def managerMultitenantDir (dir : String) : String := dir ++ "/multitenant"

/-- The destination identifier of one period build (manager.go 223-231). -/
def dstIdentifier (nodeName : String) (t : Int) (dir : String) (pd : String) :
    PrefixedIdentifier :=
  ⟨⟨nodeName, t⟩, managerMultitenantDir dir ++ "/" ++ pd, ""⟩

/-- The identifier function handed to Build (manager.go 239-241): it
ignores the from, through and checksum arguments the Builder supplies
once the content is known, returning the captured destination. -/
def tsdbIdentifierFn (dst : PrefixedIdentifier) :
    Int → Int → Nat → PrefixedIdentifier :=
  fun _ _ _ => dst

/-- Modelled from the spec: outcomes of the external fallible calls of
the publish loop, per bucket key (Build, NewShippableTSDBFile, AddIndex),
plus the content interval and checksum the Builder feeds back to the
identifier function. -/
structure BuildOracles where
  buildErr : String → Option String
  loadErr : String → Option String
  shipErr : String → Option String
  contentFrom : String → Int
  contentThrough : String → Int
  checksum : String → Nat

/-- Observable effects of the publish loop. -/
structure PublishOutcome where
  err : Option String
  buildCalls : List (String × PrefixedIdentifier)
  addIndexCalls : List (String × String × PrefixedIdentifier)
deriving DecidableEq, Repr

/-- The publish loop of BuildFromWALs (manager.go 221-257): per touched
period, build the file at its destination identifier, wrap it as a
shippable file and register it under the bucket key with an empty tenant;
the first failing step aborts the loop. -/
def publishPeriods (nodeName : String) (t : Int) (dir : String)
    (orc : BuildOracles) : List (String × Builder) → PublishOutcome
  | [] => ⟨none, [], []⟩
  | (p, _b) :: rest =>
    let dst := dstIdentifier nodeName t dir p
    let used := tsdbIdentifierFn dst (orc.contentFrom p) (orc.contentThrough p)
      (orc.checksum p)
    match orc.buildErr p with
    | some e => ⟨some e, [(p, used)], []⟩
    | none =>
      match orc.loadErr p with
      | some e => ⟨some e, [(p, used)], []⟩
      | none =>
        match orc.shipErr p with
        | some e => ⟨some e, [(p, used)], [(p, "", dst)]⟩
        | none =>
          let out := publishPeriods nodeName t dir orc rest
          ⟨out.err, (p, used) :: out.buildCalls, (p, "", dst) :: out.addIndexCalls⟩

/-- Observable result of one BuildFromWALs call: returned error, the
builder map of the pass (the record of all AddSeries calls), the Build
and AddIndex calls, and the metric increments of the deferred update. -/
structure BuildFromWALsResult where
  err : Option String
  periods : PeriodMap
  buildCalls : List (String × PrefixedIdentifier)
  addIndexCalls : List (String × String × PrefixedIdentifier)
  attemptsInc : Nat
  failuresInc : Nat
deriving DecidableEq, Repr

/-- BuildFromWALs (manager.go 159-260). WAL recovery is modelled by its
contract: either a recovery error or the list of triples the iteration
yields. The deferred metrics update always counts one attempt and counts
one failure exactly when an error is returned. A recovery error is
wrapped with static context by errors.Wrap; a visit error is returned
unwrapped (manager.go 218). -/
def buildFromWALs (nodeName dir : String) (hsh : Labels → Nat)
    (tr : TableRanges) (orc : BuildOracles) (t : Int)
    (recovery : Except String (List HeadSeries)) : BuildFromWALsResult :=
  match recovery with
  | Except.error e =>
    ⟨some ("building TSDB from WALs: " ++ e), [], [], [], 1, 1⟩
  | Except.ok heads =>
    match forAllSeries hsh tr [] heads with
    | (m, some e) => ⟨some e, m, [], [], 1, 1⟩
    | (m, none) =>
      let out := publishPeriods nodeName t dir orc m
      ⟨out.err, m, out.buildCalls, out.addIndexCalls, 1,
        match out.err with | some _ => 1 | none => 0⟩

/-- Some bucket list of the pds map holds the chunk at the given key. -/
def HasChunk (m : PdsMap) (k : String) (c : ChunkMeta) : Prop :=
  ∃ cs, (k, cs) ∈ m ∧ c ∈ cs

theorem pdsAdd_hasChunk_pres (k : String) (c : ChunkMeta) (k0 : String)
    (c0 : ChunkMeta) :
    ∀ m : PdsMap, HasChunk m k c → HasChunk (pdsAdd m k0 c0) k c := by
  intro m
  induction m with
  | nil =>
    rintro ⟨cs, hmem, _⟩
    exact absurd hmem (List.not_mem_nil _)
  | cons hd rest ih =>
    obtain ⟨k', cs'⟩ := hd
    rintro ⟨cs, hmem, hc⟩
    rcases List.mem_cons.mp hmem with heq | hmem'
    · rw [Prod.mk.injEq] at heq
      obtain ⟨hk1, hk2⟩ := heq
      subst hk1
      subst hk2
      by_cases hk : k = k0
      · exact ⟨cs ++ [c0], by simp [pdsAdd, hk], List.mem_append_left _ hc⟩
      · exact ⟨cs, by simp [pdsAdd, hk], hc⟩
    · by_cases hk : k' = k0
      · exact ⟨cs, by simp [pdsAdd, hk, List.mem_cons_of_mem _ hmem'], hc⟩
      · obtain ⟨cs2, h2, h3⟩ := ih ⟨cs, hmem', hc⟩
        exact ⟨cs2, by simp only [pdsAdd, if_neg hk]; exact List.mem_cons_of_mem _ h2, h3⟩

theorem pdsAdd_hasChunk_new (k : String) (c : ChunkMeta) :
    ∀ m : PdsMap, HasChunk (pdsAdd m k c) k c := by
  intro m
  induction m with
  | nil => exact ⟨[c], by simp [pdsAdd], by simp⟩
  | cons hd rest ih =>
    obtain ⟨k', cs'⟩ := hd
    by_cases hk : k' = k
    · subst hk
      exact ⟨cs' ++ [c], by simp [pdsAdd], by simp⟩
    · obtain ⟨cs2, h2, h3⟩ := ih
      exact ⟨cs2, by simp only [pdsAdd, if_neg hk]; exact List.mem_cons_of_mem _ h2, h3⟩

theorem foldl_pdsAdd_pres (k : String) (c c0 : ChunkMeta) :
    ∀ (bks : List String) (m : PdsMap), HasChunk m k c →
      HasChunk (bks.foldl (fun acc b => pdsAdd acc b c0) m) k c := by
  intro bks
  induction bks with
  | nil => intro m h; exact h
  | cons b rest ih =>
    intro m h
    exact ih _ (pdsAdd_hasChunk_pres k c b c0 m h)

theorem foldl_pdsAdd_new (c : ChunkMeta) (bk : String) :
    ∀ (bks : List String) (m : PdsMap), bk ∈ bks →
      HasChunk (bks.foldl (fun acc b => pdsAdd acc b c) m) bk c := by
  intro bks
  induction bks with
  | nil => intro m h; exact absurd h (List.not_mem_nil _)
  | cons b rest ih =>
    intro m h
    rcases List.mem_cons.mp h with rfl | h'
    · exact foldl_pdsAdd_pres bk c c rest _ (pdsAdd_hasChunk_new bk c m)
    · exact ih _ h'

theorem chunkPdsGo_pres (tr : TableRanges) (k : String) (c : ChunkMeta) :
    ∀ (chks : List ChunkMeta) (m pds : PdsMap),
      chunkPdsGo tr m chks = Except.ok pds → HasChunk m k c → HasChunk pds k c := by
  intro chks
  induction chks with
  | nil =>
    intro m pds h hm
    injection h with h
    subst h
    exact hm
  | cons c0 rest ih =>
    intro m pds h hm
    cases hib : indexBuckets c0.cfrom c0.cthrough tr with
    | error e => simp [chunkPdsGo, hib] at h
    | ok bks =>
      simp only [chunkPdsGo, hib] at h
      exact ih _ _ h (foldl_pdsAdd_pres k c c0 bks m hm)

theorem chunkPdsGo_new (tr : TableRanges) (c : ChunkMeta) (bk : String)
    (bks : List String) :
    ∀ (chks : List ChunkMeta) (m pds : PdsMap),
      chunkPdsGo tr m chks = Except.ok pds → c ∈ chks →
      indexBuckets c.cfrom c.cthrough tr = Except.ok bks → bk ∈ bks →
      HasChunk pds bk c := by
  intro chks
  induction chks with
  | nil => intro m pds _ hc; exact absurd hc (List.not_mem_nil _)
  | cons c0 rest ih =>
    intro m pds h hc hib hbk
    rcases List.mem_cons.mp hc with rfl | hc'
    · simp only [chunkPdsGo, hib] at h
      exact chunkPdsGo_pres tr bk c rest _ pds h (foldl_pdsAdd_new c bk bks m hbk)
    · cases hib0 : indexBuckets c0.cfrom c0.cthrough tr with
      | error e => simp [chunkPdsGo, hib0] at h
      | ok bks0 =>
        simp only [chunkPdsGo, hib0] at h
        exact ih _ _ h hc' hib hbk

/-- Some builder of the period map holds, at the given key, an entry
satisfying the predicate. -/
def HasEntry (m : PeriodMap) (k : String) (Q : BuilderEntry → Prop) : Prop :=
  ∃ b, (k, b) ∈ m ∧ ∃ e ∈ b, Q e

theorem periodsAdd_hasEntry_pres (k : String) (Q : BuilderEntry → Prop)
    (k0 : String) (e0 : BuilderEntry) :
    ∀ m : PeriodMap, HasEntry m k Q → HasEntry (periodsAdd m k0 e0) k Q := by
  intro m
  induction m with
  | nil =>
    rintro ⟨b, hmem, _⟩
    exact absurd hmem (List.not_mem_nil _)
  | cons hd rest ih =>
    obtain ⟨k', b'⟩ := hd
    rintro ⟨b, hmem, he⟩
    rcases List.mem_cons.mp hmem with heq | hmem'
    · rw [Prod.mk.injEq] at heq
      obtain ⟨hk1, hk2⟩ := heq
      subst hk1
      subst hk2
      by_cases hk : k = k0
      · obtain ⟨e, he1, he2⟩ := he
        exact ⟨b ++ [e0], by simp [periodsAdd, hk], e, List.mem_append_left _ he1, he2⟩
      · exact ⟨b, by simp [periodsAdd, hk], he⟩
    · by_cases hk : k' = k0
      · exact ⟨b, by simp [periodsAdd, hk, List.mem_cons_of_mem _ hmem'], he⟩
      · obtain ⟨b2, h2, h3⟩ := ih ⟨b, hmem', he⟩
        exact ⟨b2, by simp only [periodsAdd, if_neg hk]; exact List.mem_cons_of_mem _ h2, h3⟩

theorem periodsAdd_hasEntry_new (k : String) (Q : BuilderEntry → Prop)
    (e0 : BuilderEntry) (hQ : Q e0) :
    ∀ m : PeriodMap, HasEntry (periodsAdd m k e0) k Q := by
  intro m
  induction m with
  | nil => exact ⟨[e0], by simp [periodsAdd], e0, by simp, hQ⟩
  | cons hd rest ih =>
    obtain ⟨k', b'⟩ := hd
    by_cases hk : k' = k
    · subst hk
      exact ⟨b' ++ [e0], by simp [periodsAdd], e0, by simp, hQ⟩
    · obtain ⟨b2, h2, h3⟩ := ih
      exact ⟨b2, by simp only [periodsAdd, if_neg hk]; exact List.mem_cons_of_mem _ h2, h3⟩

theorem foldl_periodsAdd_pres (w : Labels) (f : Nat) (k : String)
    (Q : BuilderEntry → Prop) :
    ∀ (pds : PdsMap) (m : PeriodMap), HasEntry m k Q →
      HasEntry (pds.foldl (fun acc pc => periodsAdd acc pc.1 ⟨w, f, pc.2⟩) m) k Q := by
  intro pds
  induction pds with
  | nil => intro m h; exact h
  | cons pc rest ih =>
    intro m h
    exact ih _ (periodsAdd_hasEntry_pres k Q pc.1 _ m h)

theorem foldl_periodsAdd_new (w : Labels) (f : Nat) (p : String)
    (cs : List ChunkMeta) (Q : BuilderEntry → Prop) (hQ : Q ⟨w, f, cs⟩) :
    ∀ (pds : PdsMap) (m : PeriodMap), (p, cs) ∈ pds →
      HasEntry (pds.foldl (fun acc pc => periodsAdd acc pc.1 ⟨w, f, pc.2⟩) m) p Q := by
  intro pds
  induction pds with
  | nil => intro m h; exact absurd h (List.not_mem_nil _)
  | cons pc rest ih =>
    intro m h
    rcases List.mem_cons.mp h with rfl | h'
    · exact foldl_periodsAdd_pres w f p Q rest _ (periodsAdd_hasEntry_new p Q _ hQ m)
    · exact ih _ h'

theorem visitSeries_hasEntry_pres (hsh : Labels → Nat) (tr : TableRanges)
    (m : PeriodMap) (s : HeadSeries) (m2 : PeriodMap)
    (h : visitSeries hsh tr m s = Except.ok m2) (k : String)
    (Q : BuilderEntry → Prop) : HasEntry m k Q → HasEntry m2 k Q := by
  intro hm
  cases hp : chunkPds tr s.chks with
  | error e => simp [visitSeries, hp] at h
  | ok pds =>
    simp only [visitSeries, hp] at h
    injection h with h
    subst h
    exact foldl_periodsAdd_pres _ _ k Q pds m hm

theorem visitSeries_hasEntry_new (hsh : Labels → Nat) (tr : TableRanges)
    (m : PeriodMap) (s : HeadSeries) (m2 : PeriodMap)
    (h : visitSeries hsh tr m s = Except.ok m2) (c : ChunkMeta)
    (bks : List String) (bk : String) (hc : c ∈ s.chks)
    (hib : indexBuckets c.cfrom c.cthrough tr = Except.ok bks) (hbk : bk ∈ bks) :
    HasEntry m2 bk (fun e => e.ls = labelsSet s.ls TenantLabel s.user
      ∧ e.fp = hsh s.ls ∧ c ∈ e.chks) := by
  cases hp : chunkPds tr s.chks with
  | error e => simp [visitSeries, hp] at h
  | ok pds =>
    simp only [visitSeries, hp] at h
    injection h with h
    subst h
    obtain ⟨cs, hmem, hcc⟩ := chunkPdsGo_new tr c bk bks s.chks [] pds hp hc hib hbk
    exact foldl_periodsAdd_new _ _ bk cs _ ⟨rfl, rfl, hcc⟩ pds m hmem

theorem forAllSeries_hasEntry_pres (hsh : Labels → Nat) (tr : TableRanges)
    (k : String) (Q : BuilderEntry → Prop) :
    ∀ (l : List HeadSeries) (m mf : PeriodMap) (oe : Option String),
      forAllSeries hsh tr m l = (mf, oe) → HasEntry m k Q → HasEntry mf k Q := by
  intro l
  induction l with
  | nil =>
    intro m mf oe h hm
    injection h with h1 _
    subst h1
    exact hm
  | cons s rest ih =>
    intro m mf oe h hm
    cases hv : visitSeries hsh tr m s with
    | error e =>
      simp only [forAllSeries, hv] at h
      injection h with h1 _
      subst h1
      exact hm
    | ok m2 =>
      simp only [forAllSeries, hv] at h
      exact ih _ _ _ h (visitSeries_hasEntry_pres hsh tr m s m2 hv k Q hm)

theorem forAllSeries_hasEntry_new (hsh : Labels → Nat) (tr : TableRanges)
    (s : HeadSeries) (c : ChunkMeta) (bks : List String) (bk : String)
    (hc : c ∈ s.chks) (hib : indexBuckets c.cfrom c.cthrough tr = Except.ok bks)
    (hbk : bk ∈ bks) :
    ∀ (l : List HeadSeries) (m mf : PeriodMap),
      forAllSeries hsh tr m l = (mf, none) → s ∈ l →
      HasEntry mf bk (fun e => e.ls = labelsSet s.ls TenantLabel s.user
        ∧ e.fp = hsh s.ls ∧ c ∈ e.chks) := by
  intro l
  induction l with
  | nil => intro m mf _ hs; exact absurd hs (List.not_mem_nil _)
  | cons s0 rest ih =>
    intro m mf h hs
    cases hv : visitSeries hsh tr m s0 with
    | error e =>
      simp only [forAllSeries, hv] at h
      injection h with _ h2
      cases h2
    | ok m2 =>
      simp only [forAllSeries, hv] at h
      rcases List.mem_cons.mp hs with rfl | hs'
      · exact forAllSeries_hasEntry_pres hsh tr bk _ rest m2 mf none h
          (visitSeries_hasEntry_new hsh tr m s m2 hv c bks bk hc hib hbk)
      · exact ih m2 mf h hs'

/-- Every entry of every builder of the map satisfies the predicate. -/
def AllEntries (m : PeriodMap) (P : BuilderEntry → Prop) : Prop :=
  ∀ kb ∈ m, ∀ e ∈ kb.2, P e

theorem periodsAdd_allEntries (P : BuilderEntry → Prop) (k : String)
    (e0 : BuilderEntry) :
    ∀ m : PeriodMap, AllEntries m P → P e0 → AllEntries (periodsAdd m k e0) P := by
  intro m
  induction m with
  | nil =>
    intro _ hP kb hkb e he
    have hk : kb = (k, [e0]) := by simpa [periodsAdd] using hkb
    subst hk
    have : e = e0 := by simpa using he
    subst this
    exact hP
  | cons hd rest ih =>
    obtain ⟨k', b'⟩ := hd
    intro hall hP kb hkb e he
    by_cases hk : k' = k
    · rw [show periodsAdd ((k', b') :: rest) k e0 = (k', b' ++ [e0]) :: rest from by
        simp [periodsAdd, hk]] at hkb
      rcases List.mem_cons.mp hkb with rfl | h
      · rcases List.mem_append.mp he with h1 | h1
        · exact hall (k', b') (List.mem_cons_self _ _) e h1
        · have : e = e0 := by simpa using h1
          subst this
          exact hP
      · exact hall kb (List.mem_cons_of_mem _ h) e he
    · rw [show periodsAdd ((k', b') :: rest) k e0 = (k', b') :: periodsAdd rest k e0 from by
        simp [periodsAdd, hk]] at hkb
      rcases List.mem_cons.mp hkb with rfl | h
      · exact hall (k', b') (List.mem_cons_self _ _) e he
      · exact ih (fun kb2 h2 e2 he2 => hall kb2 (List.mem_cons_of_mem _ h2) e2 he2)
          hP kb h e he

theorem foldl_periodsAdd_allEntries (P : BuilderEntry → Prop) (w : Labels) (f : Nat) :
    ∀ (pds : PdsMap) (m : PeriodMap), AllEntries m P →
      (∀ pc ∈ pds, P ⟨w, f, pc.2⟩) →
      AllEntries (pds.foldl (fun acc pc => periodsAdd acc pc.1 ⟨w, f, pc.2⟩) m) P := by
  intro pds
  induction pds with
  | nil => intro m h _; exact h
  | cons pc rest ih =>
    intro m h hP
    exact ih _ (periodsAdd_allEntries P pc.1 _ m h (hP pc (List.mem_cons_self _ _)))
      (fun pc2 h2 => hP pc2 (List.mem_cons_of_mem _ h2))

theorem visitSeries_allEntries (hsh : Labels → Nat) (tr : TableRanges)
    (P : BuilderEntry → Prop) (s : HeadSeries) (m m2 : PeriodMap)
    (h : visitSeries hsh tr m s = Except.ok m2) (hall : AllEntries m P)
    (hP : ∀ cs, P ⟨labelsSet s.ls TenantLabel s.user, hsh s.ls, cs⟩) :
    AllEntries m2 P := by
  cases hp : chunkPds tr s.chks with
  | error e => simp [visitSeries, hp] at h
  | ok pds =>
    simp only [visitSeries, hp] at h
    injection h with h
    subst h
    exact foldl_periodsAdd_allEntries P _ _ pds m hall (fun pc _ => hP pc.2)

theorem forAllSeries_allEntries (hsh : Labels → Nat) (tr : TableRanges)
    (P : BuilderEntry → Prop) :
    ∀ (l : List HeadSeries) (m mf : PeriodMap) (oe : Option String),
      forAllSeries hsh tr m l = (mf, oe) → AllEntries m P →
      (∀ s ∈ l, ∀ cs, P ⟨labelsSet s.ls TenantLabel s.user, hsh s.ls, cs⟩) →
      AllEntries mf P := by
  intro l
  induction l with
  | nil =>
    intro m mf oe h hall _
    injection h with h1 _
    subst h1
    exact hall
  | cons s rest ih =>
    intro m mf oe h hall hP
    cases hv : visitSeries hsh tr m s with
    | error e =>
      simp only [forAllSeries, hv] at h
      injection h with h1 _
      subst h1
      exact hall
    | ok m2 =>
      simp only [forAllSeries, hv] at h
      exact ih _ _ _ h
        (visitSeries_allEntries hsh tr P s m m2 hv hall (hP s (List.mem_cons_self _ _)))
        (fun s2 h2 => hP s2 (List.mem_cons_of_mem _ h2))

theorem periodsAdd_keys_mem (k : String) (e : BuilderEntry) :
    ∀ (m : PeriodMap) (x : String), x ∈ (periodsAdd m k e).map Prod.fst →
      x ∈ m.map Prod.fst ∨ x = k := by
  intro m
  induction m with
  | nil =>
    intro x hx
    right
    simpa [periodsAdd] using hx
  | cons hd rest ih =>
    obtain ⟨k', b'⟩ := hd
    intro x hx
    by_cases hk : k' = k
    · left
      simpa [periodsAdd, hk] using hx
    · rw [show periodsAdd ((k', b') :: rest) k e = (k', b') :: periodsAdd rest k e from by
        simp [periodsAdd, hk]] at hx
      rw [List.map_cons] at hx
      rcases List.mem_cons.mp hx with rfl | h
      · left; simp
      · rcases ih x h with h2 | h2
        · left; simp [h2]
        · right; exact h2

theorem periodsAdd_keys_nodup (k : String) (e : BuilderEntry) :
    ∀ m : PeriodMap, (m.map Prod.fst).Nodup →
      ((periodsAdd m k e).map Prod.fst).Nodup := by
  intro m
  induction m with
  | nil => intro _; simp [periodsAdd]
  | cons hd rest ih =>
    obtain ⟨k', b'⟩ := hd
    intro hnd
    rw [List.map_cons, List.nodup_cons] at hnd
    obtain ⟨hk', hrest⟩ := hnd
    by_cases hk : k' = k
    · rw [show periodsAdd ((k', b') :: rest) k e = (k', b' ++ [e]) :: rest from by
        simp [periodsAdd, hk]]
      rw [List.map_cons, List.nodup_cons]
      exact ⟨hk', hrest⟩
    · rw [show periodsAdd ((k', b') :: rest) k e = (k', b') :: periodsAdd rest k e from by
        simp [periodsAdd, hk]]
      rw [List.map_cons, List.nodup_cons]
      refine ⟨fun hmem => ?_, ih hrest⟩
      rcases periodsAdd_keys_mem k e rest k' hmem with h | h
      · exact hk' h
      · exact hk h

theorem foldl_periodsAdd_keys_nodup (w : Labels) (f : Nat) :
    ∀ (pds : PdsMap) (m : PeriodMap), (m.map Prod.fst).Nodup →
      ((pds.foldl (fun acc pc => periodsAdd acc pc.1 ⟨w, f, pc.2⟩) m).map Prod.fst).Nodup := by
  intro pds
  induction pds with
  | nil => intro m h; exact h
  | cons pc rest ih =>
    intro m h
    exact ih _ (periodsAdd_keys_nodup pc.1 _ m h)

theorem visitSeries_keys_nodup (hsh : Labels → Nat) (tr : TableRanges)
    (s : HeadSeries) (m m2 : PeriodMap) (h : visitSeries hsh tr m s = Except.ok m2)
    (hnd : (m.map Prod.fst).Nodup) : (m2.map Prod.fst).Nodup := by
  cases hp : chunkPds tr s.chks with
  | error e => simp [visitSeries, hp] at h
  | ok pds =>
    simp only [visitSeries, hp] at h
    injection h with h
    subst h
    exact foldl_periodsAdd_keys_nodup _ _ pds m hnd

theorem forAllSeries_keys_nodup (hsh : Labels → Nat) (tr : TableRanges) :
    ∀ (l : List HeadSeries) (m mf : PeriodMap) (oe : Option String),
      forAllSeries hsh tr m l = (mf, oe) → (m.map Prod.fst).Nodup →
      (mf.map Prod.fst).Nodup := by
  intro l
  induction l with
  | nil =>
    intro m mf oe h hnd
    injection h with h1 _
    subst h1
    exact hnd
  | cons s rest ih =>
    intro m mf oe h hnd
    cases hv : visitSeries hsh tr m s with
    | error e =>
      simp only [forAllSeries, hv] at h
      injection h with h1 _
      subst h1
      exact hnd
    | ok m2 =>
      simp only [forAllSeries, hv] at h
      exact ih _ _ _ h (visitSeries_keys_nodup hsh tr s m m2 hv hnd)

theorem publishPeriods_ok (nodeName : String) (t : Int) (dir : String)
    (orc : BuildOracles) :
    ∀ l : List (String × Builder), (publishPeriods nodeName t dir orc l).err = none →
      publishPeriods nodeName t dir orc l
        = ⟨none, l.map (fun pb => (pb.1, dstIdentifier nodeName t dir pb.1)),
            l.map (fun pb => (pb.1, "", dstIdentifier nodeName t dir pb.1))⟩ := by
  intro l
  induction l with
  | nil => intro _; rfl
  | cons pb rest ih =>
    obtain ⟨p, b⟩ := pb
    intro h
    cases hbe : orc.buildErr p with
    | some e => simp [publishPeriods, hbe] at h
    | none =>
      cases hle : orc.loadErr p with
      | some e => simp [publishPeriods, hbe, hle] at h
      | none =>
        cases hse : orc.shipErr p with
        | some e => simp [publishPeriods, hbe, hle, hse] at h
        | none =>
          have h2 : (publishPeriods nodeName t dir orc rest).err = none := by
            simpa [publishPeriods, hbe, hle, hse] using h
          simp [publishPeriods, hbe, hle, hse, ih h2, tsdbIdentifierFn]

theorem publishPeriods_addIndex_id (nodeName : String) (t : Int) (dir : String)
    (orc : BuildOracles) :
    ∀ (l : List (String × Builder)) (pd tn : String) (ident : PrefixedIdentifier),
      (pd, tn, ident) ∈ (publishPeriods nodeName t dir orc l).addIndexCalls →
      tn = "" ∧ ident = dstIdentifier nodeName t dir pd := by
  intro l
  induction l with
  | nil =>
    intro pd tn ident h
    simp [publishPeriods] at h
  | cons pb rest ih =>
    obtain ⟨p, b⟩ := pb
    intro pd tn ident h
    cases hbe : orc.buildErr p with
    | some e => simp [publishPeriods, hbe] at h
    | none =>
      cases hle : orc.loadErr p with
      | some e => simp [publishPeriods, hbe, hle] at h
      | none =>
        cases hse : orc.shipErr p with
        | some e =>
          simp only [publishPeriods, hbe, hle, hse, List.mem_singleton] at h
          rw [Prod.mk.injEq, Prod.mk.injEq] at h
          obtain ⟨rfl, rfl, rfl⟩ := h
          exact ⟨rfl, rfl⟩
        | none =>
          simp only [publishPeriods, hbe, hle, hse, List.mem_cons] at h
          rcases h with heq | h2
          · rw [Prod.mk.injEq, Prod.mk.injEq] at heq
            obtain ⟨rfl, rfl, rfl⟩ := heq
            exact ⟨rfl, rfl⟩
          · exact ih pd tn ident h2

/-- Claim C2: every series entry recorded by any Builder during a
BuildFromWALs pass carries the fingerprint of the original label set of
the visited triple, computed before the synthetic tenant label was
injected, while the labels stored alongside are the tenant-tagged copy.
Holds for every hash function of the external label type. -/
theorem C2_thm (nodeName dir : String) (hsh : Labels → Nat) (tr : TableRanges)
    (orc : BuildOracles) (t : Int) (heads : List HeadSeries)
    (pd : String) (b : Builder) (e : BuilderEntry)
    (hpd : (pd, b) ∈ (buildFromWALs nodeName dir hsh tr orc t (Except.ok heads)).periods)
    (he : e ∈ b) :
    ∃ s ∈ heads, e.ls = labelsSet s.ls TenantLabel s.user ∧ e.fp = hsh s.ls := by
  cases hf : forAllSeries hsh tr [] heads with
  | mk mf oe =>
    have hall : AllEntries mf
        (fun e2 => ∃ s ∈ heads,
          e2.ls = labelsSet s.ls TenantLabel s.user ∧ e2.fp = hsh s.ls) :=
      forAllSeries_allEntries hsh tr _ heads [] mf oe hf
        (fun kb h => absurd h (List.not_mem_nil _))
        (fun s hs cs => ⟨s, hs, rfl, rfl⟩)
    have hper : (buildFromWALs nodeName dir hsh tr orc t (Except.ok heads)).periods = mf := by
      cases oe <;> simp [buildFromWALs, hf]
    rw [hper] at hpd
    exact hall (pd, b) hpd e he

/-- A hash function for witnesses; any function works in the theorems. -/
def exHash : Labels → Nat := fun ls => ls.length

/-- Configuration covering only table 0, used in witnesses. -/
def exTr0 : TableRanges := fun n => if n = 0 then some ⟨"index_"⟩ else none

/-- A chunk inside table period 0. -/
def exChunk : ChunkMeta := ⟨0, 1, 42⟩

/-- One recovered series of tenant A with one chunk. -/
def exSeries : HeadSeries := ⟨"tenantA", [("app", "foo")], [exChunk]⟩

/-- Oracles in which every external call succeeds, content checksum 7. -/
def exOrcOk : BuildOracles :=
  ⟨fun _ => none, fun _ => none, fun _ => none, fun _ => 0, fun _ => 0, fun _ => 7⟩

/-- As exOrcOk but with content checksum 13. -/
def exOrcCk : BuildOracles :=
  ⟨fun _ => none, fun _ => none, fun _ => none, fun _ => 0, fun _ => 0, fun _ => 13⟩

/-- The builder entry produced for exSeries. -/
def exEntry : BuilderEntry :=
  ⟨[(TenantLabel, "tenantA"), ("app", "foo")], 1, [exChunk]⟩

/-- Witness for claim C2 on a concrete one-series build. -/
theorem C2_witness :
    ∃ s ∈ [exSeries],
      exEntry.ls = labelsSet s.ls TenantLabel s.user ∧ exEntry.fp = exHash s.ls :=
  C2_thm "node1" "/data" exHash exTr0 exOrcOk 5 [exSeries] "index_0" [exEntry] exEntry
    (by decide) (by decide)

/-- Claim C3: when the visit pass of BuildFromWALs completes without
error, every chunk of every visited series appears, for every bucket key
the partitioner returns for its interval, in the chunk list of a series
entry added to that bucket key with the tenant-tagged labels of the
series. In particular a chunk whose interval overlaps several table
periods is added to the Builder of every overlapped period. -/
theorem C3_thm (nodeName dir : String) (hsh : Labels → Nat) (tr : TableRanges)
    (orc : BuildOracles) (t : Int) (heads : List HeadSeries) (s : HeadSeries)
    (c : ChunkMeta) (bks : List String) (bk : String)
    (hs : s ∈ heads) (hc : c ∈ s.chks)
    (hib : indexBuckets c.cfrom c.cthrough tr = Except.ok bks) (hbk : bk ∈ bks)
    (hva : (forAllSeries hsh tr [] heads).2 = none) :
    ∃ b, (bk, b) ∈ (buildFromWALs nodeName dir hsh tr orc t (Except.ok heads)).periods
      ∧ ∃ e ∈ b, e.ls = labelsSet s.ls TenantLabel s.user
          ∧ e.fp = hsh s.ls ∧ c ∈ e.chks := by
  cases hf : forAllSeries hsh tr [] heads with
  | mk mf oe =>
    rw [hf] at hva
    simp only at hva
    subst hva
    have hper : (buildFromWALs nodeName dir hsh tr orc t (Except.ok heads)).periods = mf := by
      simp [buildFromWALs, hf]
    rw [hper]
    exact forAllSeries_hasEntry_new hsh tr s c bks bk hc hib hbk heads [] mf hf hs

/-- Configuration covering tables 0 and 1, used by the C3 witness. -/
def exTr01 : TableRanges := fun n => if n = 0 ∨ n = 1 then some ⟨"index_"⟩ else none

/-- A chunk crossing the boundary between table periods 0 and 1. -/
def exChunkWide : ChunkMeta := ⟨36000000, 93600000, 43⟩

/-- One recovered series whose only chunk spans two periods. -/
def exSeriesWide : HeadSeries := ⟨"tenantA", [("app", "foo")], [exChunkWide]⟩

/-- Witness for claim C3: the period-crossing chunk lands in the builder
of bucket key index_1 as well (and symmetrically in index_0). -/
theorem C3_witness :
    ∃ b, (("index_1", b)
        ∈ (buildFromWALs "node1" "/data" exHash exTr01 exOrcOk 5
            (Except.ok [exSeriesWide])).periods)
      ∧ ∃ e ∈ b, e.ls = labelsSet exSeriesWide.ls TenantLabel exSeriesWide.user
          ∧ e.fp = exHash exSeriesWide.ls ∧ exChunkWide ∈ e.chks :=
  C3_thm "node1" "/data" exHash exTr01 exOrcOk 5 [exSeriesWide] exSeriesWide
    exChunkWide ["index_0", "index_1"] "index_1"
    (by decide) (by decide) (by decide) (by decide) (by decide)

/-- Claim C4: when BuildFromWALs succeeds, the AddIndex calls are exactly
one per entry of the period map, in order, each carrying the bucket key,
the empty tenant string and the destination identifier of that key; the
Build calls likewise; and the bucket keys of the period map are pairwise
distinct, so each distinct touched bucket key is built and registered
exactly once. -/
theorem C4_thm (nodeName dir : String) (hsh : Labels → Nat) (tr : TableRanges)
    (orc : BuildOracles) (t : Int) (heads : List HeadSeries)
    (herr : (buildFromWALs nodeName dir hsh tr orc t (Except.ok heads)).err = none) :
    (buildFromWALs nodeName dir hsh tr orc t (Except.ok heads)).addIndexCalls
        = (buildFromWALs nodeName dir hsh tr orc t (Except.ok heads)).periods.map
            (fun pb => (pb.1, "", dstIdentifier nodeName t dir pb.1))
      ∧ (buildFromWALs nodeName dir hsh tr orc t (Except.ok heads)).buildCalls
          = (buildFromWALs nodeName dir hsh tr orc t (Except.ok heads)).periods.map
              (fun pb => (pb.1, dstIdentifier nodeName t dir pb.1))
      ∧ ((buildFromWALs nodeName dir hsh tr orc t (Except.ok heads)).periods.map
            Prod.fst).Nodup := by
  cases hf : forAllSeries hsh tr [] heads with
  | mk mf oe =>
    cases oe with
    | some e0 =>
      have : (buildFromWALs nodeName dir hsh tr orc t (Except.ok heads)).err = some e0 := by
        simp [buildFromWALs, hf]
      rw [this] at herr
      cases herr
    | none =>
      have hpub : (publishPeriods nodeName t dir orc mf).err = none := by
        have h2 : (buildFromWALs nodeName dir hsh tr orc t (Except.ok heads)).err
            = (publishPeriods nodeName t dir orc mf).err := by
          simp [buildFromWALs, hf]
        rw [h2] at herr
        exact herr
      have hchar := publishPeriods_ok nodeName t dir orc mf hpub
      have hnd := forAllSeries_keys_nodup hsh tr heads [] mf none hf (by simp)
      refine ⟨?_, ?_, ?_⟩
      · simp [buildFromWALs, hf, hchar]
      · simp [buildFromWALs, hf, hchar]
      · simpa [buildFromWALs, hf] using hnd

/-- Witness for claim C4 on a concrete successful one-series build. -/
theorem C4_witness :
    (buildFromWALs "node1" "/data" exHash exTr0 exOrcOk 5 (Except.ok [exSeries])).addIndexCalls
        = (buildFromWALs "node1" "/data" exHash exTr0 exOrcOk 5
            (Except.ok [exSeries])).periods.map
            (fun pb => (pb.1, "", dstIdentifier "node1" 5 "/data" pb.1))
      ∧ (buildFromWALs "node1" "/data" exHash exTr0 exOrcOk 5 (Except.ok [exSeries])).buildCalls
          = (buildFromWALs "node1" "/data" exHash exTr0 exOrcOk 5
              (Except.ok [exSeries])).periods.map
              (fun pb => (pb.1, dstIdentifier "node1" 5 "/data" pb.1))
      ∧ ((buildFromWALs "node1" "/data" exHash exTr0 exOrcOk 5
            (Except.ok [exSeries])).periods.map Prod.fst).Nodup :=
  C4_thm "node1" "/data" exHash exTr0 exOrcOk 5 [exSeries] (by decide)

/-- Claim C5: a WAL-recovery error makes BuildFromWALs return that error
wrapped with static context; both the attempt and the failure counter
increment, no Builder is created, no Build and no AddIndex call occurs. -/
theorem C5_thm (nodeName dir : String) (hsh : Labels → Nat) (tr : TableRanges)
    (orc : BuildOracles) (t : Int) (e : String) :
    buildFromWALs nodeName dir hsh tr orc t (Except.error e)
      = ⟨some ("building TSDB from WALs: " ++ e), [], [], [], 1, 1⟩ := rfl

/-- Claim C10: a recovery that succeeds with zero triples makes
BuildFromWALs return no error, create no Builder, perform no Build and no
AddIndex call, and increment only the attempt counter. -/
theorem C10_thm (nodeName dir : String) (hsh : Labels → Nat) (tr : TableRanges)
    (orc : BuildOracles) (t : Int) :
    buildFromWALs nodeName dir hsh tr orc t (Except.ok [])
      = ⟨none, [], [], [], 1, 0⟩ := rfl

/-- Claim C9 as stated is false: two successful builds whose contents
carry different checksums produce identical results, including identical
destination identifiers of the registered files, because the identifier
function of the source ignores the checksum argument and returns an
identifier fixed before the content is built. -/
theorem C9_counterexample :
    exOrcOk.checksum "index_0" ≠ exOrcCk.checksum "index_0"
      ∧ buildFromWALs "node1" "/data" exHash exTr0 exOrcOk 5 (Except.ok [exSeries])
          = buildFromWALs "node1" "/data" exHash exTr0 exOrcCk 5 (Except.ok [exSeries])
      ∧ (buildFromWALs "node1" "/data" exHash exTr0 exOrcOk 5
          (Except.ok [exSeries])).err = none
      ∧ (buildFromWALs "node1" "/data" exHash exTr0 exOrcOk 5
          (Except.ok [exSeries])).addIndexCalls ≠ [] := by
  refine ⟨by decide, rfl, by decide, by decide⟩

/-- Claim C9 (amended): every index file registered by BuildFromWALs is
assigned the destination identifier of its bucket key, which incorporates
the node name and the build timestamp; the checksum supplied to the
identifier function after the content is built is ignored, the identifier
being fixed beforehand. -/
theorem C9_amended_thm (nodeName dir : String) (hsh : Labels → Nat)
    (tr : TableRanges) (orc : BuildOracles) (t : Int)
    (recovery : Except String (List HeadSeries)) (pd tn : String)
    (ident : PrefixedIdentifier)
    (hmem : (pd, tn, ident)
      ∈ (buildFromWALs nodeName dir hsh tr orc t recovery).addIndexCalls) :
    ident = dstIdentifier nodeName t dir pd
      ∧ ident.base.nodeName = nodeName ∧ ident.base.ts = t := by
  cases recovery with
  | error e => simp [buildFromWALs] at hmem
  | ok heads =>
    cases hf : forAllSeries hsh tr [] heads with
    | mk mf oe =>
      cases oe with
      | some e0 =>
        have : (buildFromWALs nodeName dir hsh tr orc t (Except.ok heads)).addIndexCalls
            = [] := by
          simp [buildFromWALs, hf]
        rw [this] at hmem
        exact absurd hmem (List.not_mem_nil _)
      | none =>
        have h2 : (buildFromWALs nodeName dir hsh tr orc t (Except.ok heads)).addIndexCalls
            = (publishPeriods nodeName t dir orc mf).addIndexCalls := by
          simp [buildFromWALs, hf]
        rw [h2] at hmem
        obtain ⟨-, hid⟩ := publishPeriods_addIndex_id nodeName t dir orc mf pd tn ident hmem
        refine ⟨hid, ?_, ?_⟩
        · rw [hid]; rfl
        · rw [hid]; rfl

/-- Witness for the amended claim C9 on a concrete successful build. -/
theorem C9_amended_witness :
    dstIdentifier "node1" 5 "/data" "index_0" = dstIdentifier "node1" 5 "/data" "index_0"
      ∧ (dstIdentifier "node1" 5 "/data" "index_0").base.nodeName = "node1"
      ∧ (dstIdentifier "node1" 5 "/data" "index_0").base.ts = 5 :=
  C9_amended_thm "node1" "/data" exHash exTr0 exOrcOk 5 (Except.ok [exSeries])
    "index_0" "" (dstIdentifier "node1" 5 "/data" "index_0") (by decide)

/-- One first-level entry of the multitenant root listing. -/
structure DirEntry where
  name : String
  isDir : Bool
deriving DecidableEq, Repr

/-- The regular expression of Start, one or more digits at the end of the
text, matches a name exactly when its last character is a digit. -/
def endsInDigits (s : String) : Bool :=
  match s.data.getLast? with
  | some ch => ch.isDigit
  | none => false

/-- Modelled from the spec: the external inputs of Start: the root
listing, the per-bucket listing, the filename parser of Multitenant
Identifiers, and the per-filename outcomes of shippable-file construction
and of registration. -/
structure StartEnv where
  rootListing : Except String (List DirEntry)
  bucketListing : String → Except String (List String)
  parseId : String → Option MultitenantTSDBIdentifier
  loadErr : String → Option String
  shipErr : String → Option String

/-- Counters and calls accumulated by Start; an AddIndex call records the
bucket key, the tenant, the filename and whether the shippable file was
constructed without error. -/
structure StartState where
  buckets : Nat
  indices : Nat
  loadingErrors : Nat
  addIndexCalls : List (String × String × String × Bool)
deriving DecidableEq, Repr

/-- How Start ends: normally, with a returned error, or with the runtime
panic of manager.go 110, where the warning log for a directory name
without digit suffix evaluates err.Error() although the err variable in
scope is necessarily nil at that point (the root listing succeeded and
every later assignment shadows it), a nil dereference. -/
inductive StartOutcome where
  | ok (st : StartState)
  | errored (st : StartState) (e : String)
  | panicked (st : StartState)
deriving DecidableEq, Repr

/-- Outcome of the file loop of one bucket: carry on, or abort the whole
Start call with the error returned by AddIndex. -/
inductive BucketResult where
  | done (st : StartState)
  | failed (st : StartState) (e : String)
deriving DecidableEq, Repr

/-- File loop of one bucket (manager.go 126-152): unparseable names are
skipped silently; a parsed name counts as an index; a construction error
warns and counts a failure yet registration is still attempted with the
resulting file; an AddIndex error counts one more failure and aborts
Start with that error. -/
def processBucketFiles (env : StartEnv) (bucket : String) :
    List String → StartState → BucketResult
  | [], st => BucketResult.done st
  | fname :: rest, st =>
    match env.parseId fname with
    | none => processBucketFiles env bucket rest st
    | some _ =>
      let st1 : StartState :=
        ⟨st.buckets, st.indices + 1, st.loadingErrors, st.addIndexCalls⟩
      let okLoad := (env.loadErr fname).isNone
      let st2 : StartState :=
        if okLoad then st1
        else ⟨st1.buckets, st1.indices, st1.loadingErrors + 1, st1.addIndexCalls⟩
      let st3 : StartState :=
        ⟨st2.buckets, st2.indices, st2.loadingErrors,
          st2.addIndexCalls ++ [(bucket, "", fname, okLoad)]⟩
      match env.shipErr fname with
      | some e =>
        BucketResult.failed
          ⟨st3.buckets, st3.indices, st3.loadingErrors + 1, st3.addIndexCalls⟩ e
      | none => processBucketFiles env bucket rest st3

/-- Directory loop of Start (manager.go 100-154): non-directories are
skipped; a directory name without digit suffix reaches the warning log
that dereferences the nil err variable, hence a panic; a bucket listing
error skips the bucket with a warning; an AddIndex failure aborts. -/
def startGo (env : StartEnv) : List DirEntry → StartState → StartOutcome
  | [], st => StartOutcome.ok st
  | f :: rest, st =>
    if f.isDir = false then startGo env rest st
    else if endsInDigits f.name = false then StartOutcome.panicked st
    else
      let st1 : StartState :=
        ⟨st.buckets + 1, st.indices, st.loadingErrors, st.addIndexCalls⟩
      match env.bucketListing f.name with
      | Except.error _ => startGo env rest st1
      | Except.ok files =>
        match processBucketFiles env f.name files st1 with
        | BucketResult.failed st2 e => StartOutcome.errored st2 e
        | BucketResult.done st2 => startGo env rest st2

/-- Start (manager.go 71-157): a failure to list the root is fatal. -/
def start (env : StartEnv) : StartOutcome :=
  match env.rootListing with
  | Except.error e => StartOutcome.errored ⟨0, 0, 0, []⟩ e
  | Except.ok files => startGo env files ⟨0, 0, 0, []⟩

/-- The scenario of the spec: buckets 17000 and 17001, a directory named
badname, one unparsable file inside 17001, every external call fine. -/
def exStartEnv : StartEnv :=
  ⟨Except.ok [⟨"17000", true⟩, ⟨"17001", true⟩, ⟨"badname", true⟩],
    fun b => if b = "17001" then Except.ok ["unparsable-file"] else Except.ok [],
    fun _ => none, fun _ => none, fun _ => none⟩

/-- Claim C7 is right about the intent but the code crashes: on the spec
scenario, Start processes buckets 17000 and 17001 (the unparsable file
skipped without counting), then panics at the directory badname, because
the warning log of manager.go 107-112 calls err.Error() on the err
variable, which is provably nil whenever that line is reached: the root
listing succeeded at line 96 and every subsequent assignment to err is a
shadowing redeclaration inside the loop body. The spec says the entry is
skipped with a warning and processing continues. -/
theorem C7_code_bug :
    start exStartEnv = StartOutcome.panicked ⟨2, 0, 0, []⟩ := by decide

/-- Claim C8: for a filename that parses as a Multitenant Identifier, a
construction failure of the shippable file increments the failure counter
while AddIndex is still called with the resulting (invalid) file: with no
registration error the loop continues on the state extended by the
counted failure and the recorded registration call; a registration error
counts one more failure and aborts with exactly that error, which
propagates out of the directory loop of Start unchanged, leaving the
remaining entries unprocessed. -/
theorem C8_thm (env : StartEnv) (bucket fname : String) (rest : List String)
    (st : StartState) (le0 : String)
    (hparse : (env.parseId fname).isSome = true)
    (hload : env.loadErr fname = some le0) :
    (env.shipErr fname = none →
      processBucketFiles env bucket (fname :: rest) st
        = processBucketFiles env bucket rest
            ⟨st.buckets, st.indices + 1, st.loadingErrors + 1,
              st.addIndexCalls ++ [(bucket, "", fname, false)]⟩)
      ∧ (∀ se, env.shipErr fname = some se →
          processBucketFiles env bucket (fname :: rest) st
            = BucketResult.failed
                ⟨st.buckets, st.indices + 1, st.loadingErrors + 2,
                  st.addIndexCalls ++ [(bucket, "", fname, false)]⟩ se)
      ∧ (∀ (d : DirEntry) (drest : List DirEntry) (st0 st2 : StartState)
            (files : List String) (e2 : String),
          d.isDir = true → endsInDigits d.name = true →
          env.bucketListing d.name = Except.ok files →
          processBucketFiles env d.name files
              ⟨st0.buckets + 1, st0.indices, st0.loadingErrors, st0.addIndexCalls⟩
            = BucketResult.failed st2 e2 →
          startGo env (d :: drest) st0 = StartOutcome.errored st2 e2) := by
  obtain ⟨id0, hid⟩ := Option.isSome_iff_exists.mp hparse
  refine ⟨?_, ?_, ?_⟩
  · intro hship
    simp [processBucketFiles, hid, hload, hship]
  · intro se hship
    simp [processBucketFiles, hid, hload, hship]
  · intro d drest st0 st2 files e2 hdir hdig hlist hproc
    simp [startGo, hdir, hdig, hlist, hproc]

/-- A Start environment with one parseable file whose construction and
registration both fail. -/
def c8Env : StartEnv :=
  ⟨Except.ok [⟨"17000", true⟩, ⟨"17001", true⟩],
    fun _ => Except.ok ["1-node1.tsdb"],
    fun s => if s = "1-node1.tsdb" then some ⟨"node1", 1⟩ else none,
    fun _ => some "construction failed",
    fun _ => some "registration failed"⟩

/-- Witness for claim C8 at a concrete file and state. -/
theorem C8_witness :
    (c8Env.shipErr "1-node1.tsdb" = none →
      processBucketFiles c8Env "17000" ["1-node1.tsdb"] ⟨1, 0, 0, []⟩
        = processBucketFiles c8Env "17000" []
            ⟨1, 1, 1, [("17000", "", "1-node1.tsdb", false)]⟩)
      ∧ (∀ se, c8Env.shipErr "1-node1.tsdb" = some se →
          processBucketFiles c8Env "17000" ["1-node1.tsdb"] ⟨1, 0, 0, []⟩
            = BucketResult.failed
                ⟨1, 1, 2, [("17000", "", "1-node1.tsdb", false)]⟩ se)
      ∧ (∀ (d : DirEntry) (drest : List DirEntry) (st0 st2 : StartState)
            (files : List String) (e2 : String),
          d.isDir = true → endsInDigits d.name = true →
          c8Env.bucketListing d.name = Except.ok files →
          processBucketFiles c8Env d.name files
              ⟨st0.buckets + 1, st0.indices, st0.loadingErrors, st0.addIndexCalls⟩
            = BucketResult.failed st2 e2 →
          startGo c8Env (d :: drest) st0 = StartOutcome.errored st2 e2) :=
  C8_thm c8Env "17000" "1-node1.tsdb" [] ⟨1, 0, 0, []⟩ "construction failed"
    (by decide) (by decide)
